import Mathlib

/-!
# Verification of `rowmap` (eaterable/rowmap, src/index.js)

This file is a shallow embedding of `src/index.js` into Lean 4, together with
theorems settling the frozen claims about the library.

Modelling notes (the embedding follows the JavaScript source, not the spec):

* JavaScript property keys reached by the library are strings (the two internal
  `Symbol` slots `VALUES` and `ROW_INDEX` cannot collide with any string key and
  are modelled as the fields of `Instance`).  A numeric property access
  `obj[i]` uses the canonical decimal string of `i` as the key, so the string
  `"2"` and the number `2` denote the same property.  The key type `PKey`
  encodes this identification: `PKey.n i` stands for the canonical decimal
  numeral of `i`, and `PKey.s name` stands for any other string.  `toKey`
  converts a JavaScript string to its `PKey`; by construction `toKey s = .n m`
  implies `s = Nat.repr m`, so the encoding is injective and two string keys
  collide exactly when the original JavaScript strings are equal.
* The prototype built by the factory is a finite map from keys to property
  descriptors, in insertion order, exactly mirroring the sequence of
  `Object.defineProperty` calls in `rowmap`.  `Object.defineProperty` throws a
  `TypeError` when asked to redefine a non-configurable property with a
  descriptor containing fresh getter/setter closures, which is what the source
  always supplies; `defineProperty` below models this.
* The getters and setters in the source (`getColumnValue` / `setColumnValue`,
  the numeric accessors, `getIndexValue`, `getArrayValue`, the `toJSON` data
  property) are classified by `PropKind`; both header accessors and numeric
  accessors read and write `this[VALUES][colIndex]`, hence both are
  `PropKind.column`.
* Members inherited from `Object.prototype` (`toString`, `constructor`, …) are
  abstracted as the opaque value `JSValue.fn name`; the library never calls
  them, it only observes their reachability through `Reflect.has` and property
  reads.  A write to `__proto__` (an inherited accessor that would change the
  prototype link) is modelled as a no-op; no claim exercises it.
* A missing backing sequence (`values` argument omitted, i.e. `undefined`) is
  `Instance.values = none`; every getter/setter then evaluates
  `undefined[colIndex]`, a `TypeError`, while `Symbol.toPrimitive` evaluates
  `String(undefined) = "undefined"` without throwing.
-/

set_option autoImplicit false

namespace Rowmap

/-- JavaScript values, as far as the library can observe them.  `fn name` is an
abstraction of a function-valued member (the `toJSON` method or a member
inherited from `Object.prototype`). -/
inductive JSValue where
  | undefined
  | null
  | bool (b : Bool)
  | num (n : Int)
  | str (s : String)
  | arr (elems : List JSValue)
  | fn (name : String)
  deriving Inhabited

/-- A JavaScript string property key.  `n i` is the canonical decimal numeral
of `i` (the key produced by a numeric index access); `s name` is any string
that is not a canonical decimal numeral.  `toKey` establishes the invariant. -/
inductive PKey where
  | s (name : String)
  | n (i : Nat)
  deriving DecidableEq, Repr, Inhabited

/-- Digit-fold over a character list; `none` as soon as a non-digit occurs. -/
def charsToNatAux : List Char → Nat → Option Nat
  | [], acc => some acc
  | c :: cs, acc =>
    if c.isDigit then charsToNatAux cs (acc * 10 + (c.toNat - 48)) else none

/-- Candidate numeric reading of a nonempty all-digit string. -/
def strNatCandidate (s : String) : Option Nat :=
  match s.data with
  | [] => none
  | c :: cs => charsToNatAux (c :: cs) 0

/-- Convert a JavaScript string key to its `PKey`.  A string is identified with
a numeric key exactly when it is the canonical decimal numeral `Nat.repr m` of
some `m` (JavaScript: `String(m) === s`). -/
def toKey (s : String) : PKey :=
  match strNatCandidate s with
  | some m => if Nat.repr m = s then .n m else .s s
  | none => .s s

/-- Display string of a key (used in `TypeError` messages). -/
def pkeyName : PKey → String
  | .s name => name
  | .n i => Nat.repr i

/-- Behaviour class of a property installed on the generated prototype.
`column i` covers both header accessors and numeric offset accessors: both
read and write `this[VALUES][i]` in the source. -/
inductive PropKind where
  | dataToJSON
  | column (colIndex : Nat)
  | indexAccessor
  | arrayAccessor
  deriving DecidableEq, Repr, Inhabited

/-- A property descriptor, keeping the attributes the library's behaviour
depends on. -/
structure PropDesc where
  kind : PropKind
  configurable : Bool
  enumerable : Bool
  deriving DecidableEq, Repr, Inhabited

/-- The prototype object: property table in insertion order. -/
abbrev Proto := List (PKey × PropDesc)

/-- First-match association list lookup. -/
def alookup {α β : Type} [DecidableEq α] : List (α × β) → α → Option β
  | [], _ => none
  | e :: t, k => if e.1 = k then some e.2 else alookup t k

/-- Insert-or-update for an association list: an existing key keeps its
position and gets the new value (JavaScript object/`defineProperty` update
semantics); a fresh key is appended. -/
def aupsert {α β : Type} [DecidableEq α] : List (α × β) → α → β → List (α × β)
  | [], k, v => [(k, v)]
  | e :: t, k, v => if e.1 = k then (k, v) :: t else e :: aupsert t k v

/-- String keys of `Object.prototype` in Node.js; `Reflect.has` and property
reads on the generated prototype fall through to these. -/
def objectPrototypeKeys : List String :=
  ["constructor", "hasOwnProperty", "isPrototypeOf", "propertyIsEnumerable",
   "toLocaleString", "toString", "valueOf", "__proto__",
   "__defineGetter__", "__defineSetter__", "__lookupGetter__", "__lookupSetter__"]

/-- `Object.defineProperty(target, key, desc)`.  Succeeds by inserting a fresh
key or replacing a configurable one; redefining a non-configurable property
with the fresh getter/setter closures the source supplies throws `TypeError`. -/
def defineProperty (p : Proto) (k : PKey) (desc : PropDesc) : Except String Proto :=
  match alookup p k with
  | none => .ok (aupsert p k desc)
  | some old =>
    if old.configurable then .ok (aupsert p k desc)
    else .error ("Cannot redefine property: " ++ pkeyName k)

/-- `definePropertyForHeader` from the source: a get/set accessor pair bound to
`colIndex`, enumerable, with the given configurability. -/
def definePropertyForHeader (p : Proto) (key : String) (colIndex : Nat)
    (configurable : Bool) : Except String Proto :=
  defineProperty p (toKey key)
    { kind := .column colIndex, configurable := configurable, enumerable := true }

/-- `defineOverwritablePropertyForHeader`: always (re)binds, configurable. -/
def defineOverwritablePropertyForHeader (p : Proto) (key : String) (colIndex : Nat) :
    Except String Proto :=
  definePropertyForHeader p key colIndex true

/-- `Reflect.has(proto, key)`: own property or a member inherited from
`Object.prototype`. -/
def reflectHas (p : Proto) (key : String) : Bool :=
  (alookup p (toKey key)).isSome || objectPrototypeKeys.contains key

/-- `defineUniquePropertyForHeader`: binds (non-configurable) only when the key
is not already reachable on the prototype. -/
def defineUniquePropertyForHeader (p : Proto) (key : String) (colIndex : Nat) :
    Except String Proto :=
  if reflectHas p key then .ok p else definePropertyForHeader p key colIndex false

/-- The callback selected by `preventCollisions ? defineUniquePropertyForHeader
: defineOverwritablePropertyForHeader`. -/
def headerStep (preventCollisions : Bool) (p : Proto) (key : String) (colIndex : Nat) :
    Except String Proto :=
  if preventCollisions then defineUniquePropertyForHeader p key colIndex
  else defineOverwritablePropertyForHeader p key colIndex

/-- `headers.forEach(preventCollisions ? defineUniquePropertyForHeader :
defineOverwritablePropertyForHeader, prototype)`, with `i` the position of the
first header of the remaining list. -/
def defineHeaders (preventCollisions : Bool) : List String → Nat → Proto → Except String Proto
  | [], _, p => .ok p
  | h :: t, i, p =>
    match headerStep preventCollisions p h i with
    | .ok p' => defineHeaders preventCollisions t (i + 1) p'
    | .error e => .error e

/-- Descriptor used for every numeric offset accessor `i` (the `for` loop in
`rowmap`): getter/setter on `this[VALUES][i]`, not enumerable, and, since the
source omits `configurable`, non-configurable. -/
def numericDesc (i : Nat) : PropDesc :=
  { kind := .column i, configurable := false, enumerable := false }

/-- The numeric-accessor loop `for (let i = 0; i < headers.length; i++)`. -/
def defineNumericAccessors : List Nat → Proto → Except String Proto
  | [], p => .ok p
  | i :: t, p =>
    match defineProperty p (.n i) (numericDesc i) with
    | .ok p' => defineNumericAccessors t p'
    | .error e => .error e

/-- `[...new Set(l)]` with the set of already-seen elements made explicit:
keeps the first occurrence of each element, in encounter order. -/
def jsSetDedupAux : List String → List String → List String
  | [], _ => []
  | h :: t, seen => if h ∈ seen then jsSetDedupAux t seen else h :: jsSetDedupAux t (h :: seen)

/-- `[...new Set(l)]`: first occurrences, in order. -/
def jsSetDedup (l : List String) : List String :=
  jsSetDedupAux l []

/-- The descriptor for the `toJSON` data property: the source's
`Object.defineProperty` call supplies only `value` and `enumerable: false`, so
it is non-configurable. -/
def toJSONDesc : PropDesc :=
  { kind := .dataToJSON, configurable := false, enumerable := false }

/-- Descriptor of the reserved `index` accessor. -/
def indexDesc : PropDesc :=
  { kind := .indexAccessor, configurable := true, enumerable := false }

/-- Descriptor of the reserved `array` accessor. -/
def arrayDesc : PropDesc :=
  { kind := .arrayAccessor, configurable := true, enumerable := false }

/-- The view descriptor returned by the factory: the prototype's property
table plus the data the prototype methods close over (`headers` for the
numeric loop and `uniqueHeaders` for `toJSON`), and the display name. -/
structure Descriptor where
  proto : Proto
  headers : List String
  uniqueHeaders : List String
  className : String
  deriving DecidableEq, Repr, Inhabited

/-- Errors the library can raise.  The source uses plain `Error` for the
configuration check and the read-only setters and the runtime raises
`TypeError` for invalid property operations; the constructors record the
role, the payload is the message. -/
inductive JSError where
  | configError (msg : String)
  | typeError (msg : String)
  | readOnlyError (msg : String)
  deriving DecidableEq, Repr, Inhabited

/-- The body of `rowmap` after input normalisation: builds the prototype in
source order (the `toJSON` / `Symbol.iterator` / `Symbol.toPrimitive` methods,
then header accessors, then the reserved `index` and `array` accessors, then
the numeric accessors) and packages the descriptor.  The symbol-keyed methods
cannot collide with string keys and are modelled by `instIterate` /
`instToPrimitive` below. -/
def buildMapper (headers : List String) (className : String)
    (preventCollisions index array : Bool) : Except String Descriptor :=
  let uniqueHeaders := if preventCollisions then jsSetDedup headers else headers
  let hasIndexInHeaders := uniqueHeaders.contains "index"
  let hasArrayInHeaders := uniqueHeaders.contains "array"
  let p0 : Proto := [(.s "toJSON", toJSONDesc)]
  match defineHeaders preventCollisions headers 0 p0 with
  | .error e => .error e
  | .ok p1 =>
    match (if index && !hasIndexInHeaders then defineProperty p1 (.s "index") indexDesc
           else .ok p1) with
    | .error e => .error e
    | .ok p2 =>
      match (if array && !hasArrayInHeaders then defineProperty p2 (.s "array") arrayDesc
             else .ok p2) with
      | .error e => .error e
      | .ok p3 =>
        match defineNumericAccessors (List.range headers.length) p3 with
        | .error e => .error e
        | .ok p4 =>
          .ok { proto := p4, headers := headers, uniqueHeaders := uniqueHeaders,
                className := className }

/-- The factory's argument.  `falsy` covers every falsy JavaScript value
(`undefined`, `null`, `false`, `0`, `''`): all of them fail the `!options`
test identically.  `arr` is an array argument; `obj` is any other truthy
value, with `none` fields for absent properties (a truthy non-object primitive
destructures exactly like `obj none none none none none`). -/
inductive JSOptions where
  | falsy
  | arr (headers : List String)
  | obj (headers : Option (List String)) (className : Option String)
        (preventCollisions : Option Bool) (index : Option Bool) (array : Option Bool)
  deriving DecidableEq, Repr, Inhabited

/-- Message of the explicit configuration check in `rowmap`. -/
def headersRequiredMsg : String :=
  "Headers must be an array or provided in a configuration object."

/-- `rowmap(options)` from `src/index.js`.  A falsy argument hits the explicit
`throw new Error(...)`.  An object without a (list-valued) `headers` property
reaches `uniqueHeaders.includes('index')` (default collision policy) or
`headers.forEach` (with `preventCollisions`) on `undefined`, a `TypeError`.
Otherwise the prototype is built; any `TypeError` thrown by
`Object.defineProperty` during the build propagates. -/
def rowmap (options : JSOptions) : Except JSError Descriptor :=
  match options with
  | .falsy => .error (.configError headersRequiredMsg)
  | .arr headers =>
    match buildMapper headers "RowMapper" false true true with
    | .ok d => .ok d
    | .error e => .error (.typeError e)
  | .obj headers className preventCollisions index array =>
    match headers with
    | none =>
      if preventCollisions.getD false then
        .error (.typeError "Cannot read properties of undefined (reading 'forEach')")
      else
        .error (.typeError "Cannot read properties of undefined (reading 'includes')")
    | some hs =>
      match buildMapper hs (className.getD "RowMapper") (preventCollisions.getD false)
              (index.getD true) (array.getD true) with
      | .ok d => .ok d
      | .error e => .error (.typeError e)

/-- A view instance: the two internal symbol slots (`VALUES`, `ROW_INDEX`) plus
the instance's own string-keyed properties (empty at construction; only plain
assignments to keys with no prototype accessor can populate it).
`values = none` models an omitted/`undefined` backing sequence. -/
structure Instance where
  values : Option (List JSValue)
  rowIndex : JSValue
  own : List (PKey × JSValue)
  deriving Inhabited

/-- `new DynamicMapper(values, rowIndex)`: stores the two references; no copy
of the backing sequence is made. -/
def newDynamicMapper (values : Option (List JSValue)) (rowIndex : JSValue) : Instance :=
  { values := values, rowIndex := rowIndex, own := [] }

/-- `DynamicMapper(values, rowIndex)` called without `new`: `this` is not an
instance, so the source re-invokes itself as a constructor and returns that
result. -/
def callDynamicMapper (values : Option (List JSValue)) (rowIndex : JSValue) : Instance :=
  newDynamicMapper values rowIndex

/-- Reading `instance[key]`: own properties first, then the generated
prototype's accessors, then `Object.prototype`, else `undefined`. -/
def getMember (d : Descriptor) (inst : Instance) (k : PKey) : Except JSError JSValue :=
  match alookup inst.own k with
  | some v => .ok v
  | none =>
    match alookup d.proto k with
    | some desc =>
      match desc.kind with
      | .column i =>
        match inst.values with
        | some vs => .ok (vs.getD i .undefined)
        | none => .error (.typeError "Cannot read properties of undefined")
      | .indexAccessor => .ok inst.rowIndex
      | .arrayAccessor =>
        .ok (match inst.values with
             | some vs => .arr vs
             | none => .undefined)
      | .dataToJSON => .ok (.fn "toJSON")
    | none =>
      match k with
      | .s name => if objectPrototypeKeys.contains name then .ok (.fn name) else .ok .undefined
      | .n _ => .ok .undefined

/-- `values[i] = v`: in-range writes update in place; past-the-end writes
extend the array, filling the gap with holes (read back as `undefined`). -/
def listWrite (vs : List JSValue) (i : Nat) (v : JSValue) : List JSValue :=
  if i < vs.length then vs.set i v
  else vs ++ List.replicate (i - vs.length) .undefined ++ [v]

/-- Message of the reserved `index` setter. -/
def indexReadOnlyMsg : String :=
  "\"index\" is a read-only property when not part of the headers."

/-- Message of the reserved `array` setter. -/
def arrayReadOnlyMsg : String :=
  "\"array\" is a read-only property when not part of the headers."

/-- Writing `instance[key] = v`.  An own data property is updated; a prototype
column setter writes through to the backing sequence; the reserved setters
throw (leaving the instance untouched); assignment to the non-writable
`toJSON` data property is a sloppy-mode no-op; an assignment finding no setter
creates an own property (`__proto__`, an inherited accessor that would rewire
the prototype link, is modelled as a no-op; nothing exercises it).  Returns
the error, if any, together with the resulting instance state. -/
def setMember (d : Descriptor) (inst : Instance) (k : PKey) (v : JSValue) :
    Option JSError × Instance :=
  match alookup inst.own k with
  | some _ => (none, { inst with own := aupsert inst.own k v })
  | none =>
    match alookup d.proto k with
    | some desc =>
      match desc.kind with
      | .column i =>
        match inst.values with
        | some vs => (none, { inst with values := some (listWrite vs i v) })
        | none => (some (.typeError "Cannot set properties of undefined"), inst)
      | .indexAccessor => (some (.readOnlyError indexReadOnlyMsg), inst)
      | .arrayAccessor => (some (.readOnlyError arrayReadOnlyMsg), inst)
      | .dataToJSON => (none, inst)
    | none =>
      match k with
      | .s "__proto__" => (none, inst)
      | _ => (none, { inst with own := aupsert inst.own k v })

/-- The `Symbol.iterator` method: delegates to the backing sequence's
iterator, so it yields exactly the backing sequence's elements in order;
`undefined[Symbol.iterator]` is a `TypeError`. -/
def instIterate (inst : Instance) : Except JSError (List JSValue) :=
  match inst.values with
  | some vs => .ok vs
  | none => .error (.typeError "Cannot read properties of undefined")

/-- `String(n)` for an integer-valued JavaScript number. -/
def intStr (n : Int) : String :=
  match n with
  | .ofNat m => Nat.repr m
  | .negSucc m => "-" ++ Nat.repr (m + 1)

mutual

/-- `Array.prototype.toString`: elements joined with commas, where `undefined`
and `null` render as the empty string. -/
def jsArrJoin : List JSValue → String
  | [] => ""
  | [v] => jsElemString v
  | v :: rest => jsElemString v ++ "," ++ jsArrJoin rest

/-- Rendering of one array element inside a join. -/
def jsElemString : JSValue → String
  | .undefined => ""
  | .null => ""
  | .bool b => if b then "true" else "false"
  | .num n => intStr n
  | .str s => s
  | .arr vs => jsArrJoin vs
  | .fn name => "function " ++ name

end

/-- The `Symbol.toPrimitive` method: `String(this[VALUES])`.  `String` of an
array is the comma-join; `String(undefined)` is `"undefined"`; in neither case
does it throw. -/
def instToPrimitive (inst : Instance) : Except JSError String :=
  .ok (match inst.values with
       | some vs => jsArrJoin vs
       | none => "undefined")

/-- One JavaScript assignment `obj[key] = v` on the fresh `toJSON` result
object `{}`.  The key `"__proto__"` hits the inherited
`Object.prototype.__proto__` setter and never creates an own key: for a
primitive value the assignment is a complete no-op, and for an object value it
only rewires the result object's prototype link, which contributes no own key
to the result and nothing to its JSON serialization — so it is modelled as
leaving the own-key table unchanged.  Every other key is either absent or an
inherited writable data property of `Object.prototype`, so assignment
creates/updates the own key (insertion order kept, in-place update on repeated
keys). -/
def jsObjSet (obj : List (String × JSValue)) (key : String) (v : JSValue) :
    List (String × JSValue) :=
  if key = "__proto__" then obj else aupsert obj key v

/-- The loop body of `toJSON`: `obj[key] = this[key]` over the captured
`uniqueHeaders`, building a JavaScript object. -/
def toJSONFold (d : Descriptor) (inst : Instance) :
    List String → List (String × JSValue) → Except JSError (List (String × JSValue))
  | [], obj => .ok obj
  | key :: rest, obj =>
    match getMember d inst (toKey key) with
    | .ok v => toJSONFold d inst rest (jsObjSet obj key v)
    | .error e => .error e

/-- `toJSON` (the library's `toPlainObject`): a fresh object with one entry per
`uniqueHeaders` key, each read through the instance's accessors at call time. -/
def instToJSON (d : Descriptor) (inst : Instance) :
    Except JSError (List (String × JSValue)) :=
  toJSONFold d inst d.uniqueHeaders []

/-- True exactly on the reserved row-position accessor kind. -/
def kindIsIndexAccessor : PropKind → Bool
  | .indexAccessor => true
  | _ => false

/-- True exactly on the reserved raw-sequence accessor kind. -/
def kindIsArrayAccessor : PropKind → Bool
  | .arrayAccessor => true
  | _ => false

/-- Whether the descriptor's prototype carries the reserved (read-only)
row-position accessor under the `index` key. -/
def reservedIndexPresent (d : Descriptor) : Bool :=
  match alookup d.proto (.s "index") with
  | some desc => kindIsIndexAccessor desc.kind
  | none => false

/-- Whether the descriptor's prototype carries the reserved (read-only)
raw-sequence accessor under the `array` key. -/
def reservedArrayPresent (d : Descriptor) : Bool :=
  match alookup d.proto (.s "array") with
  | some desc => kindIsArrayAccessor desc.kind
  | none => false

/-- Total variant of `getMember`: the read value, defaulting on a throw. -/
def getMemberD (d : Descriptor) (inst : Instance) (k : PKey) : JSValue :=
  (getMember d inst k).toOption.getD .undefined

/-- The descriptor of the worked collision example `create(['id','name','id'])`
under the default policy. -/
def c3DefaultDescriptor : Descriptor :=
  (rowmap (.arr ["id", "name", "id"])).toOption.getD default

/-- The descriptor of the worked collision example with
`preventCollisions: true`. -/
def c3UniqueDescriptor : Descriptor :=
  (rowmap (.obj (some ["id", "name", "id"]) none (some true) none none)).toOption.getD default

/-- The instance of the worked collision example, over `[1,'Alice',2]`. -/
def c3Instance : Instance :=
  newDynamicMapper (some [.num 1, .str "Alice", .num 2]) .undefined

/-- A single-field descriptor with both reserved options at their defaults,
used to witness the reserved-field claim. -/
def c4Descriptor : Descriptor :=
  (rowmap (.obj (some ["id"]) none (some false) (some true) (some true))).toOption.getD default

/-- An instance of `c4Descriptor` over `[1]` with row position `5`. -/
def c4Instance : Instance := newDynamicMapper (some [.num 1]) (.num 5)

/-- A `preventCollisions` descriptor whose field list contains the inherited
name `toString`, used to witness the inherited-name claim. -/
def c9Descriptor : Descriptor :=
  (rowmap (.obj (some ["id", "toString"]) none (some true) none none)).toOption.getD default

/-- The duplicate-carrying descriptor `create(['id','name','id'])` used to
witness the sequence-protocol claim. -/
def c6Descriptor : Descriptor :=
  (rowmap (.arr ["id", "name", "id"])).toOption.getD default

/-- A single-field descriptor used for the sequence-protocol counterexample. -/
def c6CtexDescriptor : Descriptor :=
  (rowmap (.arr ["a"])).toOption.getD default

/-- A plain duplicate-free descriptor used to witness the aliased-access
claim. -/
def c1Descriptor : Descriptor :=
  (rowmap (.arr ["id", "name"])).toOption.getD default

/-- The descriptor of `create(['a','0'])`: the second field is named by the
decimal numeral of offset 0, so its named accessor and the numeric accessor 0
share one property key. -/
def c1CtexDescriptor : Descriptor :=
  (rowmap (.arr ["a", "0"])).toOption.getD default

/-- A plain two-field descriptor used to witness the missing-backing claim. -/
def c10Descriptor : Descriptor :=
  (rowmap (.arr ["id", "name"])).toOption.getD default

/-- A plain two-field descriptor used to witness the out-of-range claim. -/
def c8Descriptor : Descriptor :=
  (rowmap (.obj (some ["a", "b"]) none (some false) (some true) (some true))).toOption.getD default

/-- The descriptor of `create(['a','2'])`: its second field name is the
decimal numeral of offset 2, which is also the first out-of-range numeric
key. -/
def c8CtexDescriptor : Descriptor :=
  (rowmap (.arr ["a", "2"])).toOption.getD default

/-! ## Association list lemmas -/

theorem alookup_aupsert_self {α β : Type} [DecidableEq α] (l : List (α × β)) (k : α) (v : β) :
    alookup (aupsert l k v) k = some v := by
  induction l with
  | nil => simp [aupsert, alookup]
  | cons e t ih =>
    by_cases h : e.1 = k
    · simp [aupsert, h, alookup]
    · simp [aupsert, h, alookup, ih]

theorem alookup_aupsert_ne {α β : Type} [DecidableEq α] (l : List (α × β)) {k k' : α} (v : β)
    (hne : k ≠ k') : alookup (aupsert l k v) k' = alookup l k' := by
  induction l with
  | nil => simp [aupsert, alookup, hne]
  | cons e t ih =>
    by_cases h : e.1 = k
    · simp only [aupsert, if_pos h, alookup]
      rw [if_neg hne, if_neg (fun he => hne (h.symm.trans he))]
    · simp only [aupsert, if_neg h, alookup, ih]

/-! ## Key encoding lemmas -/

theorem toKey_n_imp {s : String} {m : Nat} (h : toKey s = .n m) : s = Nat.repr m := by
  cases hc : strNatCandidate s with
  | none =>
    simp only [toKey, hc] at h
    exact absurd h (by simp)
  | some m0 =>
    simp only [toKey, hc] at h
    by_cases hr : Nat.repr m0 = s
    · rw [if_pos hr] at h
      cases h
      exact hr.symm
    · rw [if_neg hr] at h
      exact absurd h (by simp)

theorem toKey_s_imp {s name : String} (h : toKey s = .s name) : name = s := by
  cases hc : strNatCandidate s with
  | none =>
    simp only [toKey, hc] at h
    cases h
    rfl
  | some m0 =>
    simp only [toKey, hc] at h
    by_cases hr : Nat.repr m0 = s
    · rw [if_pos hr] at h
      exact absurd h (by simp)
    · rw [if_neg hr] at h
      cases h
      rfl

theorem toKey_inj {a b : String} (h : toKey a = toKey b) : a = b := by
  cases hk : toKey a with
  | s name =>
    rw [hk] at h
    rw [← toKey_s_imp hk, toKey_s_imp h.symm]
  | n m =>
    rw [hk] at h
    rw [toKey_n_imp hk, toKey_n_imp h.symm]

/-! ## `defineProperty` lemmas -/

theorem defineProperty_ok_self {p p' : Proto} {k : PKey} {desc : PropDesc}
    (h : defineProperty p k desc = .ok p') : alookup p' k = some desc := by
  cases hl : alookup p k with
  | none =>
    simp only [defineProperty, hl] at h
    cases h
    exact alookup_aupsert_self ..
  | some old =>
    simp only [defineProperty, hl] at h
    by_cases hc : old.configurable
    · rw [if_pos hc] at h
      cases h
      exact alookup_aupsert_self ..
    · rw [if_neg hc] at h
      exact absurd h (by simp)

theorem defineProperty_ok_ne {p p' : Proto} {k k' : PKey} {desc : PropDesc}
    (h : defineProperty p k desc = .ok p') (hne : k ≠ k') :
    alookup p' k' = alookup p k' := by
  cases hl : alookup p k with
  | none =>
    simp only [defineProperty, hl] at h
    cases h
    exact alookup_aupsert_ne _ _ hne
  | some old =>
    simp only [defineProperty, hl] at h
    by_cases hc : old.configurable
    · rw [if_pos hc] at h
      cases h
      exact alookup_aupsert_ne _ _ hne
    · rw [if_neg hc] at h
      exact absurd h (by simp)

theorem defineProperty_of_lookup_none {p : Proto} {k : PKey} {desc : PropDesc}
    (h : alookup p k = none) : defineProperty p k desc = .ok (aupsert p k desc) := by
  unfold defineProperty
  rw [h]

theorem defineProperty_ok_some {p p' : Proto} {k k' : PKey} {desc d0 : PropDesc}
    (h : defineProperty p k desc = .ok p') (h0 : alookup p k' = some d0) :
    ∃ d1, alookup p' k' = some d1 := by
  by_cases hk : k = k'
  · subst hk
    exact ⟨desc, defineProperty_ok_self h⟩
  · rw [defineProperty_ok_ne h hk]
    exact ⟨d0, h0⟩

/-! ## Header-stage lemmas -/

theorem headerStep_ok_lookup {pc : Bool} {p p' : Proto} {h : String} {i : Nat}
    (hst : headerStep pc p h i = .ok p') (k : PKey) :
    alookup p' k = alookup p k ∨
      (k = toKey h ∧ ∃ cfg, alookup p' k = some ⟨.column i, cfg, true⟩) := by
  unfold headerStep defineUniquePropertyForHeader defineOverwritablePropertyForHeader
    definePropertyForHeader at hst
  by_cases hk : k = toKey h
  · subst hk
    cases pc with
    | true =>
      rw [if_pos rfl] at hst
      by_cases hr : reflectHas p h
      · rw [if_pos hr] at hst
        cases hst
        exact Or.inl rfl
      · rw [if_neg hr] at hst
        exact Or.inr ⟨rfl, false, defineProperty_ok_self hst⟩
    | false =>
      rw [if_neg (by simp)] at hst
      exact Or.inr ⟨rfl, true, defineProperty_ok_self hst⟩
  · left
    cases pc with
    | true =>
      rw [if_pos rfl] at hst
      by_cases hr : reflectHas p h
      · rw [if_pos hr] at hst
        cases hst
        rfl
      · rw [if_neg hr] at hst
        exact defineProperty_ok_ne hst (fun he => hk he.symm)
    | false =>
      rw [if_neg (by simp)] at hst
      exact defineProperty_ok_ne hst (fun he => hk he.symm)

theorem headerStep_default_binding {p p' : Proto} {h : String} {i : Nat}
    (hst : headerStep false p h i = .ok p') :
    alookup p' (toKey h) = some ⟨.column i, true, true⟩ := by
  unfold headerStep defineOverwritablePropertyForHeader definePropertyForHeader at hst
  rw [if_neg (by simp)] at hst
  exact defineProperty_ok_self hst

theorem defineHeaders_ok_lookup_ne {pc : Bool} {hs : List String} {i : Nat} {p p' : Proto}
    (hh : defineHeaders pc hs i p = .ok p') {k : PKey} (hk : ∀ h ∈ hs, toKey h ≠ k) :
    alookup p' k = alookup p k := by
  induction hs generalizing i p with
  | nil =>
    unfold defineHeaders at hh
    cases hh
    rfl
  | cons h t ih =>
    unfold defineHeaders at hh
    cases hst : headerStep pc p h i with
    | ok p1 =>
      rw [hst] at hh
      have ht := ih hh (fun x hx => hk x (List.mem_cons_of_mem _ hx))
      rw [ht]
      rcases headerStep_ok_lookup hst k with heq | ⟨hke, _⟩
      · exact heq
      · exact absurd hke.symm (hk h (List.mem_cons_self _ _))
    | error e =>
      rw [hst] at hh
      exact absurd hh (by simp)

theorem defineHeaders_ok_kind {pc : Bool} {hs : List String} {i : Nat} {p p' : Proto}
    (hh : defineHeaders pc hs i p = .ok p') {k : PKey} {d' : PropDesc}
    (hl : alookup p' k = some d') :
    alookup p k = some d' ∨ ∃ j, d'.kind = .column j := by
  induction hs generalizing i p with
  | nil =>
    unfold defineHeaders at hh
    cases hh
    exact Or.inl hl
  | cons h t ih =>
    unfold defineHeaders at hh
    cases hst : headerStep pc p h i with
    | ok p1 =>
      rw [hst] at hh
      rcases ih hh with h1 | h2
      · rcases headerStep_ok_lookup hst k with heq | ⟨_, cfg, hbound⟩
        · rw [heq] at h1
          exact Or.inl h1
        · rw [hbound] at h1
          cases h1
          exact Or.inr ⟨i, rfl⟩
      · exact Or.inr h2
    | error e =>
      rw [hst] at hh
      exact absurd hh (by simp)

theorem defineHeaders_default_binding {hs : List String} {i : Nat} {p p' : Proto}
    (hh : defineHeaders false hs i p = .ok p') (hnd : hs.Nodup) (j : Nat) (hj : j < hs.length) :
    alookup p' (toKey (hs.get ⟨j, hj⟩)) = some ⟨.column (i + j), true, true⟩ := by
  induction hs generalizing i p j with
  | nil => exact absurd hj (by simp)
  | cons h t ih =>
    unfold defineHeaders at hh
    cases hst : headerStep false p h i with
    | ok p1 =>
      rw [hst] at hh
      cases j with
      | zero =>
        have hne : ∀ x ∈ t, toKey x ≠ toKey h := by
          intro x hx he
          exact (List.nodup_cons.mp hnd).1 (toKey_inj he ▸ hx)
        rw [show (h :: t).get ⟨0, hj⟩ = h from rfl]
        rw [defineHeaders_ok_lookup_ne hh hne, Nat.add_zero]
        exact headerStep_default_binding hst
      | succ j0 =>
        have hj0 : j0 < t.length := by
          simp only [List.length_cons] at hj
          omega
        have hix := ih hh (List.nodup_cons.mp hnd).2 j0 hj0
        rw [show (h :: t).get ⟨j0 + 1, hj⟩ = t.get ⟨j0, hj0⟩ from rfl, hix,
          show i + 1 + j0 = i + (j0 + 1) from by omega]
    | error e =>
      rw [hst] at hh
      exact absurd hh (by simp)

theorem defineHeaders_unique_inherited {hs : List String} {i : Nat} {p p' : Proto}
    {name : String}
    (hh : defineHeaders true hs i p = .ok p')
    (hop : objectPrototypeKeys.contains name = true) :
    alookup p' (.s name) = alookup p (.s name) := by
  induction hs generalizing i p with
  | nil =>
    unfold defineHeaders at hh
    cases hh
    rfl
  | cons h t ih =>
    unfold defineHeaders at hh
    cases hst : headerStep true p h i with
    | ok p1 =>
      rw [hst] at hh
      rw [ih hh]
      by_cases hk : toKey h = .s name
      · have hhn : name = h := toKey_s_imp hk
        have hrh : reflectHas p h = true := by
          unfold reflectHas
          rw [← hhn, hop]
          simp
        unfold headerStep defineUniquePropertyForHeader at hst
        rw [if_pos rfl, if_pos hrh] at hst
        cases hst
        rfl
      · rcases headerStep_ok_lookup hst (.s name) with heq | ⟨hke, _⟩
        · exact heq
        · exact absurd hke.symm hk
    | error e =>
      rw [hst] at hh
      exact absurd hh (by simp)

theorem defineHeaders_ok_some {pc : Bool} {hs : List String} {i : Nat} {p p' : Proto}
    {k : PKey} {d0 : PropDesc}
    (hh : defineHeaders pc hs i p = .ok p') (h0 : alookup p k = some d0) :
    ∃ d1, alookup p' k = some d1 := by
  induction hs generalizing i p d0 with
  | nil =>
    unfold defineHeaders at hh
    cases hh
    exact ⟨d0, h0⟩
  | cons h t ih =>
    unfold defineHeaders at hh
    cases hst : headerStep pc p h i with
    | ok p1 =>
      rw [hst] at hh
      rcases headerStep_ok_lookup hst k with heq | ⟨_, cfg, hbound⟩
      · exact ih hh (heq ▸ h0)
      · exact ih hh hbound
    | error e =>
      rw [hst] at hh
      exact absurd hh (by simp)

theorem defineHeaders_default_mem_column {hs : List String} {i : Nat} {p p' : Proto}
    (hh : defineHeaders false hs i p = .ok p') {h : String} (hmem : h ∈ hs) :
    ∃ j d1, alookup p' (toKey h) = some d1 ∧ d1.kind = .column j := by
  induction hs generalizing i p with
  | nil => exact absurd hmem (by simp)
  | cons h0 t ih =>
    unfold defineHeaders at hh
    cases hst : headerStep false p h0 i with
    | ok p1 =>
      rw [hst] at hh
      rcases List.mem_cons.mp hmem with he | ht
      · subst he
        obtain ⟨d1, hd1⟩ :=
          defineHeaders_ok_some hh (headerStep_default_binding hst)
        rcases defineHeaders_ok_kind hh hd1 with h5 | ⟨j, hj⟩
        · rw [headerStep_default_binding hst] at h5
          cases h5
          exact ⟨i, _, hd1, rfl⟩
        · exact ⟨j, d1, hd1, hj⟩
      · exact ih hh ht
    | error e =>
      rw [hst] at hh
      exact absurd hh (by simp)

/-! ## Numeric-stage lemmas -/

theorem defineNumericAccessors_ok_lookup_ne {idxs : List Nat} {p p' : Proto}
    (hn : defineNumericAccessors idxs p = .ok p') {k : PKey} (hk : ∀ j ∈ idxs, k ≠ .n j) :
    alookup p' k = alookup p k := by
  induction idxs generalizing p with
  | nil =>
    unfold defineNumericAccessors at hn
    cases hn
    rfl
  | cons j t ih =>
    unfold defineNumericAccessors at hn
    cases hst : defineProperty p (.n j) (numericDesc j) with
    | ok p1 =>
      rw [hst] at hn
      rw [ih hn (fun x hx => hk x (List.mem_cons_of_mem _ hx))]
      exact defineProperty_ok_ne hst (fun he => hk j (List.mem_cons_self _ _) he.symm)
    | error e =>
      rw [hst] at hn
      exact absurd hn (by simp)

theorem defineNumericAccessors_ok_kind {idxs : List Nat} {p p' : Proto}
    (hn : defineNumericAccessors idxs p = .ok p') {k : PKey} {d' : PropDesc}
    (hl : alookup p' k = some d') :
    alookup p k = some d' ∨ ∃ j, d' = numericDesc j := by
  induction idxs generalizing p with
  | nil =>
    unfold defineNumericAccessors at hn
    cases hn
    exact Or.inl hl
  | cons j t ih =>
    unfold defineNumericAccessors at hn
    cases hst : defineProperty p (.n j) (numericDesc j) with
    | ok p1 =>
      rw [hst] at hn
      rcases ih hn with h1 | h2
      · by_cases hkj : k = .n j
        · subst hkj
          rw [defineProperty_ok_self hst] at h1
          cases h1
          exact Or.inr ⟨j, rfl⟩
        · rw [defineProperty_ok_ne hst (fun he => hkj he.symm)] at h1
          exact Or.inl h1
      · exact Or.inr h2
    | error e =>
      rw [hst] at hn
      exact absurd hn (by simp)

theorem defineNumericAccessors_binding {idxs : List Nat} {p p' : Proto}
    (hn : defineNumericAccessors idxs p = .ok p') (hnd : idxs.Nodup) {j : Nat} (hj : j ∈ idxs) :
    alookup p' (.n j) = some (numericDesc j) := by
  induction idxs generalizing p with
  | nil => exact absurd hj (by simp)
  | cons j0 t ih =>
    unfold defineNumericAccessors at hn
    cases hst : defineProperty p (.n j0) (numericDesc j0) with
    | ok p1 =>
      rw [hst] at hn
      rcases List.mem_cons.mp hj with he | ht
      · subst he
        have hne : ∀ x ∈ t, PKey.n j ≠ PKey.n x := by
          intro x hx he
          cases he
          exact (List.nodup_cons.mp hnd).1 hx
        rw [defineNumericAccessors_ok_lookup_ne hn hne]
        exact defineProperty_ok_self hst
      · exact ih hn (List.nodup_cons.mp hnd).2 ht
    | error e =>
      rw [hst] at hn
      exact absurd hn (by simp)

theorem defineNumericAccessors_ok_some {idxs : List Nat} {p p' : Proto} {k : PKey}
    {d0 : PropDesc}
    (hn : defineNumericAccessors idxs p = .ok p') (h0 : alookup p k = some d0) :
    ∃ d1, alookup p' k = some d1 := by
  induction idxs generalizing p d0 with
  | nil =>
    unfold defineNumericAccessors at hn
    cases hn
    exact ⟨d0, h0⟩
  | cons j t ih =>
    unfold defineNumericAccessors at hn
    cases hst : defineProperty p (.n j) (numericDesc j) with
    | ok p1 =>
      rw [hst] at hn
      obtain ⟨d1, hd1⟩ := defineProperty_ok_some hst h0
      exact ih hn hd1
    | error e =>
      rw [hst] at hn
      exact absurd hn (by simp)

/-! ## Dedup lemmas -/

theorem jsSetDedupAux_mem (l : List String) :
    ∀ (seen : List String) (a : String), a ∈ jsSetDedupAux l seen ↔ a ∈ l ∧ a ∉ seen := by
  induction l with
  | nil => intro seen a; simp [jsSetDedupAux]
  | cons h t ih =>
    intro seen a
    by_cases hh : h ∈ seen
    · rw [show jsSetDedupAux (h :: t) seen = jsSetDedupAux t seen from by
        simp [jsSetDedupAux, hh]]
      rw [ih]
      constructor
      · rintro ⟨h1, h2⟩
        exact ⟨List.mem_cons_of_mem _ h1, h2⟩
      · rintro ⟨h1, h2⟩
        rcases List.mem_cons.mp h1 with he | ht
        · subst he
          exact absurd hh h2
        · exact ⟨ht, h2⟩
    · rw [show jsSetDedupAux (h :: t) seen = h :: jsSetDedupAux t (h :: seen) from by
        simp [jsSetDedupAux, hh]]
      simp only [List.mem_cons, ih]
      constructor
      · rintro (he | ⟨h1, h2⟩)
        · subst he
          exact ⟨Or.inl rfl, hh⟩
        · exact ⟨Or.inr h1, fun hc => h2 (Or.inr hc)⟩
      · rintro ⟨he | h1, h2⟩
        · exact Or.inl he
        · by_cases hah : a = h
          · exact Or.inl hah
          · refine Or.inr ⟨h1, ?_⟩
            rintro (hx | hx)
            · exact hah hx
            · exact h2 hx

theorem jsSetDedup_mem (l : List String) (a : String) : a ∈ jsSetDedup l ↔ a ∈ l := by
  simp [jsSetDedup, jsSetDedupAux_mem]

/-! ## Factory inversion lemmas -/

theorem buildMapper_ok_inv {hs : List String} {cn : String} {pc oi oa : Bool} {d : Descriptor}
    (h : buildMapper hs cn pc oi oa = .ok d) :
    ∃ p1 p2 p3,
      defineHeaders pc hs 0 [(.s "toJSON", toJSONDesc)] = .ok p1 ∧
      (if oi && !((if pc then jsSetDedup hs else hs).contains "index") then
        defineProperty p1 (.s "index") indexDesc else .ok p1) = .ok p2 ∧
      (if oa && !((if pc then jsSetDedup hs else hs).contains "array") then
        defineProperty p2 (.s "array") arrayDesc else .ok p2) = .ok p3 ∧
      defineNumericAccessors (List.range hs.length) p3 = .ok d.proto ∧
      d.headers = hs ∧
      d.uniqueHeaders = (if pc then jsSetDedup hs else hs) ∧
      d.className = cn := by
  simp only [buildMapper] at h
  cases h1 : defineHeaders pc hs 0 [(.s "toJSON", toJSONDesc)] with
  | error e =>
    simp only [h1] at h
    exact absurd h (by simp)
  | ok p1 =>
    simp only [h1] at h
    cases h2 : (if oi && !((if pc then jsSetDedup hs else hs).contains "index") then
        defineProperty p1 (.s "index") indexDesc else .ok p1) with
    | error e =>
      simp only [h2] at h
      exact absurd h (by simp)
    | ok p2 =>
      simp only [h2] at h
      cases h3 : (if oa && !((if pc then jsSetDedup hs else hs).contains "array") then
          defineProperty p2 (.s "array") arrayDesc else .ok p2) with
      | error e =>
        simp only [h3] at h
        exact absurd h (by simp)
      | ok p3 =>
        simp only [h3] at h
        cases h4 : defineNumericAccessors (List.range hs.length) p3 with
        | error e =>
          simp only [h4] at h
          exact absurd h (by simp)
        | ok p4 =>
          simp only [h4] at h
          cases h
          exact ⟨p1, p2, p3, rfl, h2, h3, h4, rfl, rfl, rfl⟩

theorem rowmap_arr_ok_inv {hs : List String} {d : Descriptor}
    (h : rowmap (.arr hs) = .ok d) : buildMapper hs "RowMapper" false true true = .ok d := by
  simp only [rowmap] at h
  cases hb : buildMapper hs "RowMapper" false true true with
  | ok d0 =>
    simp only [hb] at h
    cases h
    rfl
  | error e =>
    simp only [hb] at h
    exact absurd h (by simp)

theorem rowmap_obj_ok_inv {hs : List String} {cn : Option String} {pc oi oa : Bool}
    {d : Descriptor}
    (h : rowmap (.obj (some hs) cn (some pc) (some oi) (some oa)) = .ok d) :
    buildMapper hs (cn.getD "RowMapper") pc oi oa = .ok d := by
  simp only [rowmap, Option.getD_some] at h
  cases hb : buildMapper hs (cn.getD "RowMapper") pc oi oa with
  | ok d0 =>
    simp only [hb] at h
    cases h
    rfl
  | error e =>
    simp only [hb] at h
    exact absurd h (by simp)

/-! ## Backing sequence write lemma -/

theorem listWrite_getD_lt {vs : List JSValue} {i : Nat} (v d0 : JSValue)
    (hi : i < vs.length) : (listWrite vs i v).getD i d0 = v := by
  unfold listWrite
  rw [if_pos hi]
  rw [List.getD_eq_getElem?_getD, List.getElem?_set_self hi]
  rfl

theorem getD_lt {vs : List JSValue} {i : Nat} (u : JSValue) (hi : i < vs.length) :
    vs.getD i u = vs.get ⟨i, hi⟩ := by
  rw [List.getD_eq_getElem?_getD, List.getElem?_eq_getElem hi, List.get_eq_getElem]
  rfl

/-! ## Accessor evaluation lemmas -/

theorem getMember_column {d : Descriptor} {inst : Instance} {k : PKey} {desc : PropDesc}
    {i : Nat} {vs : List JSValue}
    (hown : inst.own = []) (hl : alookup d.proto k = some desc) (hk : desc.kind = .column i)
    (hv : inst.values = some vs) :
    getMember d inst k = .ok (vs.getD i .undefined) := by
  unfold getMember
  rw [hown]
  simp only [alookup, hl, hk, hv]

theorem getMember_column_none {d : Descriptor} {inst : Instance} {k : PKey} {desc : PropDesc}
    {i : Nat}
    (hown : inst.own = []) (hl : alookup d.proto k = some desc) (hk : desc.kind = .column i)
    (hv : inst.values = none) :
    getMember d inst k = .error (.typeError "Cannot read properties of undefined") := by
  unfold getMember
  rw [hown]
  simp only [alookup, hl, hk, hv]

theorem setMember_column {d : Descriptor} {inst : Instance} {k : PKey} {desc : PropDesc}
    {i : Nat} {vs : List JSValue} (v : JSValue)
    (hown : inst.own = []) (hl : alookup d.proto k = some desc) (hk : desc.kind = .column i)
    (hv : inst.values = some vs) :
    setMember d inst k v = (none, { inst with values := some (listWrite vs i v) }) := by
  unfold setMember
  rw [hown]
  simp only [alookup, hl, hk, hv]

theorem setMember_column_none {d : Descriptor} {inst : Instance} {k : PKey} {desc : PropDesc}
    {i : Nat} (v : JSValue)
    (hown : inst.own = []) (hl : alookup d.proto k = some desc) (hk : desc.kind = .column i)
    (hv : inst.values = none) :
    setMember d inst k v = (some (.typeError "Cannot set properties of undefined"), inst) := by
  unfold setMember
  rw [hown]
  simp only [alookup, hl, hk, hv]

theorem getMember_absent {d : Descriptor} {inst : Instance} {name : String}
    (hown : inst.own = []) (hl : alookup d.proto (.s name) = none)
    (hop : objectPrototypeKeys.contains name = false) :
    getMember d inst (.s name) = .ok .undefined := by
  unfold getMember
  rw [hown]
  simp only [alookup, hl, hop]
  rfl

theorem getMember_absent_n {d : Descriptor} {inst : Instance} {i : Nat}
    (hown : inst.own = []) (hl : alookup d.proto (.n i) = none) :
    getMember d inst (.n i) = .ok .undefined := by
  unfold getMember
  rw [hown]
  simp only [alookup, hl]

theorem getMember_inherited {d : Descriptor} {inst : Instance} {name : String}
    (hown : inst.own = []) (hl : alookup d.proto (.s name) = none)
    (hop : objectPrototypeKeys.contains name = true) :
    getMember d inst (.s name) = .ok (.fn name) := by
  unfold getMember
  rw [hown]
  simp only [alookup, hl, hop]
  rfl

theorem getMember_indexAccessor {d : Descriptor} {inst : Instance} {k : PKey} {desc : PropDesc}
    (hown : inst.own = []) (hl : alookup d.proto k = some desc)
    (hk : desc.kind = .indexAccessor) :
    getMember d inst k = .ok inst.rowIndex := by
  unfold getMember
  rw [hown]
  simp only [alookup, hl, hk]

theorem setMember_indexAccessor {d : Descriptor} {inst : Instance} {k : PKey} {desc : PropDesc}
    (v : JSValue) (hown : inst.own = []) (hl : alookup d.proto k = some desc)
    (hk : desc.kind = .indexAccessor) :
    setMember d inst k v = (some (.readOnlyError indexReadOnlyMsg), inst) := by
  unfold setMember
  rw [hown]
  simp only [alookup, hl, hk]

theorem setMember_arrayAccessor {d : Descriptor} {inst : Instance} {k : PKey} {desc : PropDesc}
    (v : JSValue) (hown : inst.own = []) (hl : alookup d.proto k = some desc)
    (hk : desc.kind = .arrayAccessor) :
    setMember d inst k v = (some (.readOnlyError arrayReadOnlyMsg), inst) := by
  unfold setMember
  rw [hown]
  simp only [alookup, hl, hk]

theorem reservedIndexPresent_elim {d : Descriptor} (h : reservedIndexPresent d = true) :
    ∃ desc, alookup d.proto (.s "index") = some desc ∧ desc.kind = .indexAccessor := by
  unfold reservedIndexPresent at h
  cases hl : alookup d.proto (.s "index") with
  | none =>
    simp only [hl] at h
    exact absurd h (by simp)
  | some desc =>
    simp only [hl] at h
    cases hk : desc.kind with
    | indexAccessor => exact ⟨desc, rfl, hk⟩
    | dataToJSON => rw [hk] at h; exact absurd h (by simp [kindIsIndexAccessor])
    | column j => rw [hk] at h; exact absurd h (by simp [kindIsIndexAccessor])
    | arrayAccessor => rw [hk] at h; exact absurd h (by simp [kindIsIndexAccessor])

theorem reservedArrayPresent_elim {d : Descriptor} (h : reservedArrayPresent d = true) :
    ∃ desc, alookup d.proto (.s "array") = some desc ∧ desc.kind = .arrayAccessor := by
  unfold reservedArrayPresent at h
  cases hl : alookup d.proto (.s "array") with
  | none =>
    simp only [hl] at h
    exact absurd h (by simp)
  | some desc =>
    simp only [hl] at h
    cases hk : desc.kind with
    | arrayAccessor => exact ⟨desc, rfl, hk⟩
    | dataToJSON => rw [hk] at h; exact absurd h (by simp [kindIsArrayAccessor])
    | column j => rw [hk] at h; exact absurd h (by simp [kindIsArrayAccessor])
    | indexAccessor => rw [hk] at h; exact absurd h (by simp [kindIsArrayAccessor])

theorem jsSetDedup_contains (F : List String) (a : String) :
    (jsSetDedup F).contains a = F.contains a := by
  simp [List.contains, List.elem_eq_mem, jsSetDedup_mem]

/-! ## Join and serialization-fold lemmas -/

theorem intercalate_go_pre (sep pre : String) (t : List String) :
    ∀ acc : String,
    String.intercalate.go (pre ++ acc) sep t = pre ++ String.intercalate.go acc sep t := by
  induction t with
  | nil =>
    intro acc
    rfl
  | cons a as ih =>
    intro acc
    show String.intercalate.go (pre ++ acc ++ sep ++ a) sep as
      = pre ++ String.intercalate.go (acc ++ sep ++ a) sep as
    rw [String.append_assoc pre acc sep, String.append_assoc pre (acc ++ sep) a]
    exact ih _

theorem jsArrJoin_eq_intercalate (vs : List JSValue) :
    jsArrJoin vs = String.intercalate "," (vs.map jsElemString) := by
  induction vs with
  | nil => rfl
  | cons v rest ih =>
    cases rest with
    | nil => rfl
    | cons v2 rest2 =>
      show jsElemString v ++ "," ++ jsArrJoin (v2 :: rest2)
        = String.intercalate "," (jsElemString v :: jsElemString v2 :: rest2.map jsElemString)
      rw [ih]
      show jsElemString v ++ "," ++ String.intercalate "," (jsElemString v2 :: rest2.map jsElemString)
        = String.intercalate.go ((jsElemString v ++ ",") ++ jsElemString v2) ","
          (rest2.map jsElemString)
      rw [intercalate_go_pre "," (jsElemString v ++ ",") (rest2.map jsElemString) (jsElemString v2)]
      rfl

/-- C5: for any valid `(values, rowPosition)`, calling the descriptor as a
plain function and using it as a constructor produce instances with identical
named access, offset access, iteration, string coercion, and serialization
results; the plain call returns the constructed instance rather than an
implicit `undefined`. -/
theorem claim_C5_dual_invocation (d : Descriptor) (values : Option (List JSValue))
    (rowIndex : JSValue) (k : PKey) (v : JSValue) :
    callDynamicMapper values rowIndex = newDynamicMapper values rowIndex ∧
    getMember d (callDynamicMapper values rowIndex) k
      = getMember d (newDynamicMapper values rowIndex) k ∧
    setMember d (callDynamicMapper values rowIndex) k v
      = setMember d (newDynamicMapper values rowIndex) k v ∧
    instIterate (callDynamicMapper values rowIndex)
      = instIterate (newDynamicMapper values rowIndex) ∧
    instToPrimitive (callDynamicMapper values rowIndex)
      = instToPrimitive (newDynamicMapper values rowIndex) ∧
    instToJSON d (callDynamicMapper values rowIndex)
      = instToJSON d (newDynamicMapper values rowIndex) :=
  ⟨rfl, rfl, rfl, rfl, rfl, rfl⟩

/-- C3: for `create(['id','name','id'])` over `[1,'Alice',2]`, the default
policy yields `instance.id == 2` (last occurrence wins) and
`preventCollisions: true` yields `instance.id == 1` (first occurrence wins);
in both policies spreading yields `[1,'Alice',2]` and `toPlainObject()` yields
exactly the two-key object with the policy-selected `id` and `name: 'Alice'`. -/
theorem claim_C3_collision_policy :
    rowmap (.arr ["id", "name", "id"]) = .ok c3DefaultDescriptor ∧
    rowmap (.obj (some ["id", "name", "id"]) none (some true) none none)
      = .ok c3UniqueDescriptor ∧
    getMember c3DefaultDescriptor c3Instance (toKey "id") = .ok (.num 2) ∧
    getMember c3UniqueDescriptor c3Instance (toKey "id") = .ok (.num 1) ∧
    instIterate c3Instance = .ok [.num 1, .str "Alice", .num 2] ∧
    instToJSON c3DefaultDescriptor c3Instance
      = .ok [("id", .num 2), ("name", .str "Alice")] ∧
    instToJSON c3UniqueDescriptor c3Instance
      = .ok [("id", .num 1), ("name", .str "Alice")] :=
  ⟨rfl, rfl, rfl, rfl, rfl, rfl, rfl⟩

/-- C2 (amended): the factory raises the documented configuration error, with
its exact message, precisely when the argument is falsy (absent, `null`,
`false`, `0`, `''`).  A truthy argument carrying no array field list raises a
`TypeError` with a different message instead, and some array-shaped
configurations also raise a `TypeError` (a field named `toJSON` under the
default policy), so it is not the case that every other configuration is
accepted. -/
theorem claim_C2_configuration_error (opts : JSOptions) (m : String)
    (h : rowmap opts = .error (.configError m)) :
    opts = .falsy ∧ m = headersRequiredMsg ∧
    rowmap .falsy = .error (.configError headersRequiredMsg) ∧
    rowmap (.obj none none none none none)
      = .error (.typeError "Cannot read properties of undefined (reading 'includes')") ∧
    rowmap (.arr ["toJSON"]) = .error (.typeError "Cannot redefine property: toJSON") := by
  have hfalsy : opts = .falsy := by
    cases opts with
    | falsy => rfl
    | arr hs =>
      simp only [rowmap] at h
      cases hb : buildMapper hs "RowMapper" false true true with
      | ok d0 =>
        simp only [hb] at h
        exact absurd h (by simp)
      | error e =>
        simp only [hb] at h
        exact absurd (Except.error.inj h) (by simp)
    | obj hs cn pc oi oa =>
      cases hs with
      | none =>
        simp only [rowmap] at h
        by_cases hpc : pc.getD false = true
        · rw [if_pos hpc] at h
          exact absurd (Except.error.inj h) (by simp)
        · rw [if_neg hpc] at h
          exact absurd (Except.error.inj h) (by simp)
      | some hs0 =>
        simp only [rowmap] at h
        cases hb : buildMapper hs0 (cn.getD "RowMapper") (pc.getD false) (oi.getD true)
            (oa.getD true) with
        | ok d0 =>
          simp only [hb] at h
          exact absurd h (by simp)
        | error e =>
          simp only [hb] at h
          exact absurd (Except.error.inj h) (by simp)
  subst hfalsy
  have hm : JSError.configError headersRequiredMsg = JSError.configError m :=
    Except.error.inj h
  exact ⟨rfl, (JSError.configError.inj hm).symm, rfl, rfl, rfl⟩

/-- C2 witness: the amended characterisation instantiated at the falsy
argument, whose hypothesis holds by computation. -/
theorem claim_C2_witness :
    JSOptions.falsy = JSOptions.falsy ∧ headersRequiredMsg = headersRequiredMsg ∧
    rowmap .falsy = .error (.configError headersRequiredMsg) ∧
    rowmap (.obj none none none none none)
      = .error (.typeError "Cannot read properties of undefined (reading 'includes')") ∧
    rowmap (.arr ["toJSON"]) = .error (.typeError "Cannot redefine property: toJSON") :=
  claim_C2_configuration_error .falsy headersRequiredMsg rfl

/-- C2 counterexample: the claim requires `ConfigurationError` with the clear
message for a configuration object carrying no field list, but the code
raises a `TypeError` with an unrelated message there. -/
theorem claim_C2_counterexample :
    rowmap (.obj none none none none none)
      = .error (.typeError "Cannot read properties of undefined (reading 'includes')") ∧
    rowmap (.obj none none none none none)
      ≠ .error (.configError headersRequiredMsg) :=
  ⟨rfl, fun hc => by
    rw [show rowmap (.obj none none none none none)
        = Except.error (.typeError "Cannot read properties of undefined (reading 'includes')")
        from rfl] at hc
    exact absurd (Except.error.inj hc) (by simp)⟩

/-- C4: the reserved pseudo-fields `index` (row position) and `array` (raw
sequence) are present exactly when the corresponding option is enabled and the
name does not appear in the field list; when present they are read-only:
writing raises the read-only error carrying the field's name in its message,
and the instance (hence the backing sequence) is left untouched by the failed
write. -/
theorem claim_C4_reserved_fields (F : List String) (cn : Option String) (pc oi oa : Bool)
    (d : Descriptor)
    (hd : rowmap (.obj (some F) cn (some pc) (some oi) (some oa)) = .ok d)
    (inst : Instance) (hown : inst.own = []) (v : JSValue) :
    reservedIndexPresent d = (oi && !(F.contains "index")) ∧
    reservedArrayPresent d = (oa && !(F.contains "array")) ∧
    (reservedIndexPresent d = true → getMember d inst (toKey "index") = .ok inst.rowIndex) ∧
    (reservedIndexPresent d = true →
      setMember d inst (toKey "index") v = (some (.readOnlyError indexReadOnlyMsg), inst)) ∧
    (reservedArrayPresent d = true →
      setMember d inst (toKey "array") v = (some (.readOnlyError arrayReadOnlyMsg), inst)) := by
  obtain ⟨p1, p2, p3, h1, h2, h3, h4, hheads, huniq, hcn⟩ :=
    buildMapper_ok_inv (rowmap_obj_ok_inv hd)
  have hci : ((if pc then jsSetDedup F else F).contains "index") = F.contains "index" := by
    cases pc
    · rfl
    · exact jsSetDedup_contains F "index"
  have hca : ((if pc then jsSetDedup F else F).contains "array") = F.contains "array" := by
    cases pc
    · rfl
    · exact jsSetDedup_contains F "array"
  rw [hci] at h2
  rw [hca] at h3
  have hp0idx : alookup [((PKey.s "toJSON"), toJSONDesc)] (PKey.s "index") = none := by decide
  have hp0arr : alookup [((PKey.s "toJSON"), toJSONDesc)] (PKey.s "array") = none := by decide
  have hIdx : reservedIndexPresent d = (oi && !(F.contains "index")) := by
    by_cases hgi : (oi && !(F.contains "index")) = true
    · rw [if_pos hgi] at h2
      have hl2 : alookup p2 (.s "index") = some indexDesc := defineProperty_ok_self h2
      have hl3 : alookup p3 (.s "index") = some indexDesc := by
        by_cases hga : (oa && !(F.contains "array")) = true
        · rw [if_pos hga] at h3
          rw [defineProperty_ok_ne h3 (by decide)]
          exact hl2
        · rw [if_neg hga] at h3
          cases h3
          exact hl2
      have hl4 : alookup d.proto (.s "index") = some indexDesc := by
        rw [defineNumericAccessors_ok_lookup_ne h4 (fun j _ he => PKey.noConfusion he)]
        exact hl3
      rw [hgi]
      unfold reservedIndexPresent
      rw [hl4]
      rfl
    · have hgi2 : (oi && !(F.contains "index")) = false := Bool.eq_false_iff.mpr hgi
      rw [if_neg hgi] at h2
      cases h2
      have hfin : ∀ desc, alookup d.proto (.s "index") = some desc →
          ∃ j, desc.kind = .column j := by
        intro desc hdesc
        rcases defineNumericAccessors_ok_kind h4 hdesc with h5 | ⟨j, hj⟩
        · have hp2v : alookup p1 (.s "index") = some desc := by
            by_cases hga : (oa && !(F.contains "array")) = true
            · rw [if_pos hga] at h3
              rw [← defineProperty_ok_ne h3 (by decide)]
              exact h5
            · rw [if_neg hga] at h3
              cases h3
              exact h5
          rcases defineHeaders_ok_kind h1 hp2v with h6 | h7
          · rw [hp0idx] at h6
            exact absurd h6 (by simp)
          · exact h7
        · exact ⟨j, by rw [hj]; rfl⟩
      rw [hgi2]
      cases hl : alookup d.proto (.s "index") with
      | none => simp only [reservedIndexPresent, hl]
      | some desc =>
        obtain ⟨j, hj⟩ := hfin desc hl
        simp only [reservedIndexPresent, hl, hj, kindIsIndexAccessor]
  have hArr : reservedArrayPresent d = (oa && !(F.contains "array")) := by
    by_cases hga : (oa && !(F.contains "array")) = true
    · rw [if_pos hga] at h3
      have hl3 : alookup p3 (.s "array") = some arrayDesc := defineProperty_ok_self h3
      have hl4 : alookup d.proto (.s "array") = some arrayDesc := by
        rw [defineNumericAccessors_ok_lookup_ne h4 (fun j _ he => PKey.noConfusion he)]
        exact hl3
      rw [hga]
      unfold reservedArrayPresent
      rw [hl4]
      rfl
    · have hga2 : (oa && !(F.contains "array")) = false := Bool.eq_false_iff.mpr hga
      rw [if_neg hga] at h3
      cases h3
      have hfin : ∀ desc, alookup d.proto (.s "array") = some desc →
          (∃ j, desc.kind = .column j) ∨ desc.kind = .indexAccessor := by
        intro desc hdesc
        rcases defineNumericAccessors_ok_kind h4 hdesc with h5 | ⟨j, hj⟩
        · by_cases hgi : (oi && !(F.contains "index")) = true
          · rw [if_pos hgi] at h2
            by_cases hdi : alookup p1 (.s "array") = some desc
            · rcases defineHeaders_ok_kind h1 hdi with h6 | h7
              · rw [hp0arr] at h6
                exact absurd h6 (by simp)
              · exact Or.inl h7
            · rw [defineProperty_ok_ne h2 (by decide)] at h5
              exact absurd h5 hdi
          · rw [if_neg hgi] at h2
            cases h2
            rcases defineHeaders_ok_kind h1 h5 with h6 | h7
            · rw [hp0arr] at h6
              exact absurd h6 (by simp)
            · exact Or.inl h7
        · exact Or.inl ⟨j, by rw [hj]; rfl⟩
      rw [hga2]
      cases hl : alookup d.proto (.s "array") with
      | none => simp only [reservedArrayPresent, hl]
      | some desc =>
        rcases hfin desc hl with ⟨j, hj⟩ | hj
        · simp only [reservedArrayPresent, hl, hj, kindIsArrayAccessor]
        · simp only [reservedArrayPresent, hl, hj, kindIsArrayAccessor]
  refine ⟨hIdx, hArr, ?_, ?_, ?_⟩
  · intro hpres
    obtain ⟨desc, hl, hk⟩ := reservedIndexPresent_elim hpres
    rw [show toKey "index" = PKey.s "index" from rfl]
    exact getMember_indexAccessor hown hl hk
  · intro hpres
    obtain ⟨desc, hl, hk⟩ := reservedIndexPresent_elim hpres
    rw [show toKey "index" = PKey.s "index" from rfl]
    exact setMember_indexAccessor v hown hl hk
  · intro hpres
    obtain ⟨desc, hl, hk⟩ := reservedArrayPresent_elim hpres
    rw [show toKey "array" = PKey.s "array" from rfl]
    exact setMember_arrayAccessor v hown hl hk

/-- C4 witness: the reserved-field characterisation applied to a concrete
single-field schema with both reserved options enabled. -/
theorem claim_C4_witness :
    reservedIndexPresent c4Descriptor = true ∧
    getMember c4Descriptor c4Instance (toKey "index") = .ok c4Instance.rowIndex ∧
    setMember c4Descriptor c4Instance (toKey "index") (.num 9)
      = (some (.readOnlyError indexReadOnlyMsg), c4Instance) ∧
    setMember c4Descriptor c4Instance (toKey "array") (.num 9)
      = (some (.readOnlyError arrayReadOnlyMsg), c4Instance) := by
  have h := claim_C4_reserved_fields ["id"] none false true true c4Descriptor rfl
    c4Instance rfl (.num 9)
  have hidx : reservedIndexPresent c4Descriptor = true := h.1.trans (by rfl)
  have harr : reservedArrayPresent c4Descriptor = true := h.2.1.trans (by rfl)
  exact ⟨hidx, h.2.2.1 hidx, h.2.2.2.1 hidx, h.2.2.2.2 harr⟩

/-- C9: with `preventCollisions`, a header accessor is installed only when the
name is not already reachable on the prototype (`defineUniquePropertyForHeader`
is a no-op when `Reflect.has` answers true); consequently, for a
duplicate-free field list containing a name inherited from `Object.prototype`
(such as `toString` or `constructor`), no column accessor is created for that
field, and a named read yields the inherited member instead of the
backing-sequence element. -/
theorem claim_C9_inherited_names (F : List String) (hnd : F.Nodup) (f : String)
    (hf : f ∈ F) (hop : f ∈ objectPrototypeKeys) (d : Descriptor)
    (hd : rowmap (.obj (some F) none (some true) none none) = .ok d)
    (vs : List JSValue) (r : JSValue) (p : Proto) (i : Nat)
    (hhas : reflectHas p f = true) :
    defineUniquePropertyForHeader p f i = .ok p ∧
    alookup d.proto (toKey f) = none ∧
    getMember d (newDynamicMapper (some vs) r) (toKey f) = .ok (.fn f) := by
  have hcont : objectPrototypeKeys.contains f = true := by
    fin_cases hop <;> rfl
  have htk : toKey f = .s f := by
    fin_cases hop <;> rfl
  have hp0 : alookup [((PKey.s "toJSON"), toJSONDesc)] (PKey.s f) = none := by
    fin_cases hop <;> decide
  have hne_idx : PKey.s "index" ≠ PKey.s f := by
    fin_cases hop <;> decide
  have hne_arr : PKey.s "array" ≠ PKey.s f := by
    fin_cases hop <;> decide
  obtain ⟨p1, p2, p3, h1, h2, h3, h4, hheads, huniq, hcn⟩ :=
    buildMapper_ok_inv (rowmap_obj_ok_inv hd)
  have hl1 : alookup p1 (.s f) = none := by
    rw [defineHeaders_unique_inherited h1 hcont]
    exact hp0
  have hl2 : alookup p2 (.s f) = none := by
    by_cases hg : (true && !((if true then jsSetDedup F else F).contains "index")) = true
    · rw [if_pos hg] at h2
      rw [defineProperty_ok_ne h2 hne_idx]
      exact hl1
    · rw [if_neg hg] at h2
      cases h2
      exact hl1
  have hl3 : alookup p3 (.s f) = none := by
    by_cases hg : (true && !((if true then jsSetDedup F else F).contains "array")) = true
    · rw [if_pos hg] at h3
      rw [defineProperty_ok_ne h3 hne_arr]
      exact hl2
    · rw [if_neg hg] at h3
      cases h3
      exact hl2
  have hl4 : alookup d.proto (.s f) = none := by
    rw [defineNumericAccessors_ok_lookup_ne h4 (fun j _ he => PKey.noConfusion he)]
    exact hl3
  refine ⟨?_, ?_, ?_⟩
  · unfold defineUniquePropertyForHeader
    rw [if_pos hhas]
  · rw [htk]
    exact hl4
  · rw [htk]
    exact getMember_inherited rfl hl4 hcont

/-- C8 (amended): out-of-range access never fails, provided no field name
equals the decimal numeral of `len(F)`: reading any installed column accessor
whose offset lies beyond the backing sequence yields `undefined` rather than
throwing, and the numeric read `instance[len(F)]` yields `undefined` rather
than throwing. -/
theorem claim_C8_out_of_range (F : List String) (cn : Option String) (pc oi oa : Bool)
    (d : Descriptor)
    (hd : rowmap (.obj (some F) cn (some pc) (some oi) (some oa)) = .ok d)
    (hnum : Nat.repr F.length ∉ F)
    (vs : List JSValue) (r : JSValue) (k : PKey) (desc : PropDesc) (i : Nat)
    (hk : alookup d.proto k = some desc) (hkind : desc.kind = .column i)
    (hi : vs.length ≤ i) :
    getMember d (newDynamicMapper (some vs) r) k = .ok .undefined ∧
    getMember d (newDynamicMapper (some vs) r) (.n F.length) = .ok .undefined := by
  constructor
  · rw [getMember_column rfl hk hkind rfl]
    rw [List.getD_eq_getElem?_getD, List.getElem?_eq_none hi]
    rfl
  · obtain ⟨p1, p2, p3, h1, h2, h3, h4, hheads, huniq, hcn⟩ :=
      buildMapper_ok_inv (rowmap_obj_ok_inv hd)
    have hp0 : alookup [((PKey.s "toJSON"), toJSONDesc)] (PKey.n F.length) = none := by
      simp [alookup]
    have hl1 : alookup p1 (.n F.length) = none := by
      rw [defineHeaders_ok_lookup_ne h1 (fun h hh he => hnum (toKey_n_imp he ▸ hh))]
      exact hp0
    have hl2 : alookup p2 (.n F.length) = none := by
      by_cases hg : (oi && !((if pc then jsSetDedup F else F).contains "index")) = true
      · rw [if_pos hg] at h2
        rw [defineProperty_ok_ne h2 (fun he => PKey.noConfusion he)]
        exact hl1
      · rw [if_neg hg] at h2
        cases h2
        exact hl1
    have hl3 : alookup p3 (.n F.length) = none := by
      by_cases hg : (oa && !((if pc then jsSetDedup F else F).contains "array")) = true
      · rw [if_pos hg] at h3
        rw [defineProperty_ok_ne h3 (fun he => PKey.noConfusion he)]
        exact hl2
      · rw [if_neg hg] at h3
        cases h3
        exact hl2
    have hl4 : alookup d.proto (.n F.length) = none := by
      rw [defineNumericAccessors_ok_lookup_ne h4 (fun j hj he => by
        cases he
        exact absurd (List.mem_range.mp hj) (lt_irrefl _))]
      exact hl3
    exact getMember_absent_n rfl hl4

/-- C8 witness: schema `['a','b']` over the one-element sequence `[1]`: the
named accessor `b` (offset 1) and the numeric read at offset 2 both yield
`undefined`. -/
theorem claim_C8_witness :
    getMember c8Descriptor (newDynamicMapper (some [.num 1]) .undefined) (toKey "b")
      = .ok .undefined ∧
    getMember c8Descriptor (newDynamicMapper (some [.num 1]) .undefined) (.n 2)
      = .ok .undefined :=
  claim_C8_out_of_range ["a", "b"] none false true true c8Descriptor rfl (by decide)
    [.num 1] .undefined (toKey "b") ⟨.column 1, true, true⟩ 1 (by decide) rfl (by decide)

/-- C8 counterexample: for schema `['a','2']` (so `len(F) = 2` and a field is
named `'2'`), the numeric read `instance[2]` over `[10,20]` yields `20` — the
field accessor aliased onto the numeric key — not the no-value sentinel the
claim requires for any schema. -/
theorem claim_C8_counterexample :
    rowmap (.arr ["a", "2"]) = .ok c8CtexDescriptor ∧
    getMember c8CtexDescriptor (newDynamicMapper (some [.num 10, .num 20]) .undefined) (.n 2)
      = .ok (.num 20) ∧
    getMember c8CtexDescriptor (newDynamicMapper (some [.num 10, .num 20]) .undefined) (.n 2)
      ≠ .ok .undefined :=
  ⟨rfl, rfl, fun h => by
    rw [show getMember c8CtexDescriptor
        (newDynamicMapper (some [.num 10, .num 20]) .undefined) (.n 2)
        = Except.ok (JSValue.num 20) from rfl] at h
    exact JSValue.noConfusion (Except.ok.inj h)⟩

/-- C9 witness: the inherited-name behaviour on the concrete schema
`['id','toString']` with `preventCollisions: true`. -/
theorem claim_C9_witness :
    defineUniquePropertyForHeader [] "toString" 0 = .ok [] ∧
    alookup c9Descriptor.proto (toKey "toString") = none ∧
    getMember c9Descriptor (newDynamicMapper (some [.num 1, .str "x"]) .undefined)
      (toKey "toString") = .ok (.fn "toString") :=
  claim_C9_inherited_names ["id", "toString"] (by decide) "toString" (by decide)
    (by decide) c9Descriptor rfl [.num 1, .str "x"] .undefined [] 0 rfl

/-- C1 (amended): for every duplicate-free field list `F` none of whose names
is the decimal numeral of a position below `len(F)`, under the default
collision policy and with `len(values) ≥ len(F)`: for each position `i`, the
named accessor `instance[F[i]]` and the numeric accessor `instance[i]` both
read `values[i]`; a write through either accessor form mutates the shared
backing sequence identically (no instance-local copy), and both accessors then
read the newly written value. -/
theorem claim_C1_aliased_access (F : List String) (d : Descriptor)
    (hd : rowmap (.arr F) = .ok d)
    (hnd : F.Nodup)
    (hnum : ∀ j, j < F.length → Nat.repr j ∉ F)
    (vs : List JSValue) (hlen : F.length ≤ vs.length)
    (r : JSValue) (i : Nat) (hi : i < F.length) (v : JSValue) :
    getMember d (newDynamicMapper (some vs) r) (toKey (F.get ⟨i, hi⟩))
      = .ok (vs.get ⟨i, lt_of_lt_of_le hi hlen⟩) ∧
    getMember d (newDynamicMapper (some vs) r) (.n i)
      = .ok (vs.get ⟨i, lt_of_lt_of_le hi hlen⟩) ∧
    (setMember d (newDynamicMapper (some vs) r) (toKey (F.get ⟨i, hi⟩)) v).1 = none ∧
    setMember d (newDynamicMapper (some vs) r) (.n i) v
      = setMember d (newDynamicMapper (some vs) r) (toKey (F.get ⟨i, hi⟩)) v ∧
    getMember d (setMember d (newDynamicMapper (some vs) r) (toKey (F.get ⟨i, hi⟩)) v).2
      (toKey (F.get ⟨i, hi⟩)) = .ok v ∧
    getMember d (setMember d (newDynamicMapper (some vs) r) (toKey (F.get ⟨i, hi⟩)) v).2
      (.n i) = .ok v := by
  obtain ⟨p1, p2, p3, h1, h2, h3, h4, hheads, huniq, hcn⟩ :=
    buildMapper_ok_inv (rowmap_arr_ok_inv hd)
  have h2x : (if (true && !(F.contains "index")) = true then
      defineProperty p1 (.s "index") indexDesc else .ok p1) = .ok p2 := h2
  have h3x : (if (true && !(F.contains "array")) = true then
      defineProperty p2 (.s "array") arrayDesc else .ok p2) = .ok p3 := h3
  have hmem : F.get ⟨i, hi⟩ ∈ F := List.get_mem F i hi
  have hbind1 : alookup p1 (toKey (F.get ⟨i, hi⟩)) = some ⟨.column i, true, true⟩ := by
    have := defineHeaders_default_binding h1 hnd i hi
    rwa [Nat.zero_add] at this
  have hbind2 : alookup p2 (toKey (F.get ⟨i, hi⟩)) = some ⟨.column i, true, true⟩ := by
    by_cases hg : (true && !(F.contains "index")) = true
    · rw [if_pos hg] at h2x
      rw [defineProperty_ok_ne h2x (fun he => by
        have hidx : "index" = F.get ⟨i, hi⟩ := toKey_s_imp he.symm
        have : F.contains "index" = false := by
          simp only [Bool.true_and, Bool.not_eq_true'] at hg
          exact hg
        rw [List.contains, List.elem_eq_mem] at this
        exact absurd (hidx ▸ hmem) (by simpa using this))]
      exact hbind1
    · rw [if_neg hg] at h2x
      cases h2x
      exact hbind1
  have hbind3 : alookup p3 (toKey (F.get ⟨i, hi⟩)) = some ⟨.column i, true, true⟩ := by
    by_cases hg : (true && !(F.contains "array")) = true
    · rw [if_pos hg] at h3x
      rw [defineProperty_ok_ne h3x (fun he => by
        have harr : "array" = F.get ⟨i, hi⟩ := toKey_s_imp he.symm
        have : F.contains "array" = false := by
          simp only [Bool.true_and, Bool.not_eq_true'] at hg
          exact hg
        rw [List.contains, List.elem_eq_mem] at this
        exact absurd (harr ▸ hmem) (by simpa using this))]
      exact hbind2
    · rw [if_neg hg] at h3x
      cases h3x
      exact hbind2
  have hkey : alookup d.proto (toKey (F.get ⟨i, hi⟩)) = some ⟨.column i, true, true⟩ := by
    rw [defineNumericAccessors_ok_lookup_ne h4 (fun j hj he => by
      have hj2 := List.mem_range.mp hj
      exact hnum j hj2 (toKey_n_imp he ▸ hmem))]
    exact hbind3
  have hnkey : alookup d.proto (.n i) = some (numericDesc i) :=
    defineNumericAccessors_binding h4 (List.nodup_range _) (List.mem_range.mpr hi)
  have hiv : i < vs.length := lt_of_lt_of_le hi hlen
  have hg1 : getMember d (newDynamicMapper (some vs) r) (toKey (F.get ⟨i, hi⟩))
      = .ok (vs.get ⟨i, hiv⟩) := by
    rw [getMember_column rfl hkey rfl rfl, getD_lt _ hiv]
  have hg2 : getMember d (newDynamicMapper (some vs) r) (.n i)
      = .ok (vs.get ⟨i, hiv⟩) := by
    rw [getMember_column rfl hnkey rfl rfl, getD_lt _ hiv]
  have hw1 : setMember d (newDynamicMapper (some vs) r) (toKey (F.get ⟨i, hi⟩)) v
      = (none, { newDynamicMapper (some vs) r with values := some (listWrite vs i v) }) :=
    setMember_column v rfl hkey rfl rfl
  have hw2 : setMember d (newDynamicMapper (some vs) r) (.n i) v
      = (none, { newDynamicMapper (some vs) r with values := some (listWrite vs i v) }) :=
    setMember_column v rfl hnkey rfl rfl
  refine ⟨hg1, hg2, by rw [hw1], by rw [hw1, hw2], ?_, ?_⟩
  · rw [hw1]
    rw [getMember_column rfl hkey rfl rfl, listWrite_getD_lt v _ hiv]
  · rw [hw1]
    rw [getMember_column rfl hnkey rfl rfl, listWrite_getD_lt v _ hiv]

/-- C1 witness: the aliased-access properties at schema `['id','name']`, row
`[1,'A']`, position 1, written value `9`. -/
theorem claim_C1_witness :
    getMember c1Descriptor (newDynamicMapper (some [.num 1, .str "A"]) .undefined)
      (toKey "name") = .ok (.str "A") ∧
    getMember c1Descriptor (newDynamicMapper (some [.num 1, .str "A"]) .undefined)
      (.n 1) = .ok (.str "A") ∧
    (setMember c1Descriptor (newDynamicMapper (some [.num 1, .str "A"]) .undefined)
      (toKey "name") (.num 9)).1 = none ∧
    setMember c1Descriptor (newDynamicMapper (some [.num 1, .str "A"]) .undefined)
      (.n 1) (.num 9)
      = setMember c1Descriptor (newDynamicMapper (some [.num 1, .str "A"]) .undefined)
        (toKey "name") (.num 9) ∧
    getMember c1Descriptor
      (setMember c1Descriptor (newDynamicMapper (some [.num 1, .str "A"]) .undefined)
        (toKey "name") (.num 9)).2 (toKey "name") = .ok (.num 9) ∧
    getMember c1Descriptor
      (setMember c1Descriptor (newDynamicMapper (some [.num 1, .str "A"]) .undefined)
        (toKey "name") (.num 9)).2 (.n 1) = .ok (.num 9) :=
  claim_C1_aliased_access ["id", "name"] c1Descriptor rfl (by decide)
    (fun j hj => by
      have hj2 : j < 2 := by simpa using hj
      interval_cases j <;> decide)
    [.num 1, .str "A"] (by decide) .undefined 1 (by decide) (.num 9)

/-- C1 counterexample: for the duplicate-free field list `['a','0']` over
`[10,20]`, the named accessor for the field `'0'` (position 1) reads `10`, not
`values[1] = 20`: the numeric-accessor loop rebinds the shared property key
`'0'` to offset 0. -/
theorem claim_C1_counterexample :
    rowmap (.arr ["a", "0"]) = .ok c1CtexDescriptor ∧
    getMember c1CtexDescriptor (newDynamicMapper (some [.num 10, .num 20]) .undefined)
      (toKey "0") = .ok (.num 10) ∧
    getMember c1CtexDescriptor (newDynamicMapper (some [.num 10, .num 20]) .undefined)
      (toKey "0") ≠ .ok (.num 20) :=
  ⟨rfl, rfl, fun h => by
    rw [show getMember c1CtexDescriptor
        (newDynamicMapper (some [.num 10, .num 20]) .undefined) (toKey "0")
        = Except.ok (JSValue.num 10) from rfl] at h
    have h2 := JSValue.num.inj (Except.ok.inj h)
    exact absurd h2 (by decide)⟩

/-- C10 (amended): invoking a descriptor with the backing sequence omitted
(`undefined`) succeeds and returns an instance, and every subsequent column
read or write — named or by numeric offset — and every iteration throws a
`TypeError`; serialization also throws for a nonempty field list (default
policy); the default string coercion, however, does not throw: it yields
`"undefined"` (`String(undefined)`). -/
theorem claim_C10_missing_backing (F : List String) (d : Descriptor)
    (hd : rowmap (.arr F) = .ok d)
    (r : JSValue) (i : Nat) (hi : i < F.length) (v : JSValue) (h0 : 0 < F.length) :
    callDynamicMapper none r = newDynamicMapper none r ∧
    getMember d (newDynamicMapper none r) (toKey (F.get ⟨i, hi⟩))
      = .error (.typeError "Cannot read properties of undefined") ∧
    getMember d (newDynamicMapper none r) (.n i)
      = .error (.typeError "Cannot read properties of undefined") ∧
    setMember d (newDynamicMapper none r) (toKey (F.get ⟨i, hi⟩)) v
      = (some (.typeError "Cannot set properties of undefined"), newDynamicMapper none r) ∧
    setMember d (newDynamicMapper none r) (.n i) v
      = (some (.typeError "Cannot set properties of undefined"), newDynamicMapper none r) ∧
    instIterate (newDynamicMapper none r)
      = .error (.typeError "Cannot read properties of undefined") ∧
    instToJSON d (newDynamicMapper none r)
      = .error (.typeError "Cannot read properties of undefined") ∧
    instToPrimitive (newDynamicMapper none r) = .ok "undefined" := by
  obtain ⟨p1, p2, p3, h1, h2, h3, h4, hheads, huniq, hcn⟩ :=
    buildMapper_ok_inv (rowmap_arr_ok_inv hd)
  have h2x : (if (true && !(F.contains "index")) = true then
      defineProperty p1 (.s "index") indexDesc else .ok p1) = .ok p2 := h2
  have h3x : (if (true && !(F.contains "array")) = true then
      defineProperty p2 (.s "array") arrayDesc else .ok p2) = .ok p3 := h3
  have huniqF : d.uniqueHeaders = F := huniq
  have hcolumn : ∀ h0, h0 ∈ F → ∃ j d1, alookup d.proto (toKey h0) = some d1 ∧
      d1.kind = .column j := by
    intro f hf
    obtain ⟨j1, d1, hl1, hk1⟩ := defineHeaders_default_mem_column h1 hf
    have hl2 : alookup p2 (toKey f) = some d1 := by
      by_cases hg : (true && !(F.contains "index")) = true
      · rw [if_pos hg] at h2x
        rw [defineProperty_ok_ne h2x (fun he => by
          have hidx : "index" = f := toKey_s_imp he.symm
          have hcf : F.contains "index" = false := by
            simp only [Bool.true_and, Bool.not_eq_true'] at hg
            exact hg
          rw [List.contains, List.elem_eq_mem] at hcf
          exact absurd (hidx ▸ hf) (by simpa using hcf))]
        exact hl1
      · rw [if_neg hg] at h2x
        cases h2x
        exact hl1
    have hl3 : alookup p3 (toKey f) = some d1 := by
      by_cases hg : (true && !(F.contains "array")) = true
      · rw [if_pos hg] at h3x
        rw [defineProperty_ok_ne h3x (fun he => by
          have harr : "array" = f := toKey_s_imp he.symm
          have hcf : F.contains "array" = false := by
            simp only [Bool.true_and, Bool.not_eq_true'] at hg
            exact hg
          rw [List.contains, List.elem_eq_mem] at hcf
          exact absurd (harr ▸ hf) (by simpa using hcf))]
        exact hl2
      · rw [if_neg hg] at h3x
        cases h3x
        exact hl2
    obtain ⟨d4, hd4⟩ := defineNumericAccessors_ok_some h4 hl3
    rcases defineNumericAccessors_ok_kind h4 hd4 with hsame | ⟨j4, hj4⟩
    · rw [hl3] at hsame
      cases hsame
      exact ⟨j1, d1, hd4, hk1⟩
    · exact ⟨j4, d4, hd4, by rw [hj4]; rfl⟩
  obtain ⟨jc, dc, hlc, hkc⟩ := hcolumn (F.get ⟨i, hi⟩) (List.get_mem F i hi)
  have hnkey : alookup d.proto (.n i) = some (numericDesc i) :=
    defineNumericAccessors_binding h4 (List.nodup_range _) (List.mem_range.mpr hi)
  refine ⟨rfl, ?_, ?_, ?_, ?_, rfl, ?_, rfl⟩
  · exact getMember_column_none rfl hlc hkc rfl
  · exact getMember_column_none rfl hnkey rfl rfl
  · exact setMember_column_none v rfl hlc hkc rfl
  · exact setMember_column_none v rfl hnkey rfl rfl
  · obtain ⟨f0, t, hFt⟩ :=
      List.exists_cons_of_ne_nil (List.ne_nil_of_length_pos h0)
    have hf0 : f0 ∈ F := by
      rw [hFt]
      exact List.mem_cons_self _ _
    obtain ⟨j0, d0, hl0, hk0⟩ := hcolumn f0 hf0
    unfold instToJSON
    rw [huniqF, hFt]
    unfold toJSONFold
    rw [getMember_column_none rfl hl0 hk0 rfl]

/-- C10 witness: the missing-backing behaviour on the concrete schema
`['id','name']` at position 0. -/
theorem claim_C10_witness :
    callDynamicMapper none .undefined = newDynamicMapper none .undefined ∧
    getMember c10Descriptor (newDynamicMapper none .undefined) (toKey "id")
      = .error (.typeError "Cannot read properties of undefined") ∧
    getMember c10Descriptor (newDynamicMapper none .undefined) (.n 0)
      = .error (.typeError "Cannot read properties of undefined") ∧
    setMember c10Descriptor (newDynamicMapper none .undefined) (toKey "id") (.num 1)
      = (some (.typeError "Cannot set properties of undefined"),
         newDynamicMapper none .undefined) ∧
    setMember c10Descriptor (newDynamicMapper none .undefined) (.n 0) (.num 1)
      = (some (.typeError "Cannot set properties of undefined"),
         newDynamicMapper none .undefined) ∧
    instIterate (newDynamicMapper none .undefined)
      = .error (.typeError "Cannot read properties of undefined") ∧
    instToJSON c10Descriptor (newDynamicMapper none .undefined)
      = .error (.typeError "Cannot read properties of undefined") ∧
    instToPrimitive (newDynamicMapper none .undefined) = .ok "undefined" :=
  claim_C10_missing_backing ["id", "name"] c10Descriptor rfl .undefined 0 (by decide)
    (.num 1) (by decide)

/-- C10 counterexample: the claim requires the default string coercion of an
instance with an omitted backing sequence to throw, but it returns the string
`"undefined"` instead. -/
theorem claim_C10_counterexample :
    rowmap (.arr ["id", "name"]) = .ok c10Descriptor ∧
    instToPrimitive (newDynamicMapper none .undefined) = .ok "undefined" :=
  ⟨rfl, rfl⟩

/-- C6 (amended): iterating a View Instance and its string coercion reflect
the full, unaliased backing sequence — every position in original order,
duplicated names included — with length equal to the backing sequence's
length, which equals `fields.length` as originally supplied whenever a
full-length row is given; the string form equals the backing sequence's
comma-joined textual form.  Neither reflects the deduplicated named view. -/
theorem claim_C6_sequence_protocol (F : List String) (d : Descriptor)
    (hd : rowmap (.arr F) = .ok d)
    (vs : List JSValue) (r : JSValue) (hlen : vs.length = F.length) :
    instIterate (newDynamicMapper (some vs) r) = .ok vs ∧
    vs.length = F.length ∧
    instToPrimitive (newDynamicMapper (some vs) r)
      = .ok (String.intercalate "," (vs.map jsElemString)) := by
  refine ⟨rfl, hlen, ?_⟩
  show Except.ok (jsArrJoin vs) = _
  rw [jsArrJoin_eq_intercalate]

/-- C6 witness: the sequence protocol over the duplicate-name schema
`['id','name','id']` with the full-length row `[1,'Alice',2]`. -/
theorem claim_C6_witness :
    instIterate (newDynamicMapper (some [.num 1, .str "Alice", .num 2]) .undefined)
      = .ok [.num 1, .str "Alice", .num 2] ∧
    ([JSValue.num 1, .str "Alice", .num 2].length = (["id", "name", "id"] : List String).length) ∧
    instToPrimitive (newDynamicMapper (some [.num 1, .str "Alice", .num 2]) .undefined)
      = .ok "1,Alice,2" :=
  claim_C6_sequence_protocol ["id", "name", "id"] c6Descriptor rfl
    [.num 1, .str "Alice", .num 2] .undefined rfl

/-- C6 counterexample: the claim fixes the iteration length at `fields.length`
as originally supplied, but iteration reflects the backing sequence: for the
one-field schema `['a']` over the two-element row `[10,20]`, spreading yields
two elements, not one. -/
theorem claim_C6_counterexample :
    rowmap (.arr ["a"]) = .ok c6CtexDescriptor ∧
    instIterate (newDynamicMapper (some [.num 10, .num 20]) .undefined)
      = .ok [.num 10, .num 20] ∧
    ¬([JSValue.num 10, .num 20].length = (["a"] : List String).length) :=
  ⟨rfl, rfl, by decide⟩

end Rowmap
